import Mathlib

/-!
Verification of the samp-chat-tool generator (src/src/Main.cpp).

The tool reads an options JSON document and a content JSON document and
emits a C++ header. We shallowly embed the in-memory JSON document model
of the parser the tool links against, the `AppOptions` record, the
language table (a string-keyed map), and the whole `parseChatJson` /
`readAppOptions` pipeline as executable Lean functions. Fallible C++
code (exceptions thrown by the JSON accessors or by the tool itself)
becomes `Except String`.
-/

/-- In-memory JSON document model (the subset the tool touches).
An object's field list is kept in the map's iteration order. -/
inductive Json where
  | null
  | bool (b : Bool)
  | num (n : Int)
  | str (s : String)
  | arr (elems : List Json)
  | obj (kvs : List (String × Json))

namespace Json

/-- `j.find(key)` on an object; `end()` (none) on anything else. -/
def find? (j : Json) (key : String) : Option Json :=
  match j with
  | obj kvs => (kvs.find? (fun kv => kv.1 == key)).map (fun kv => kv.2)
  | _ => none

/-- `j.contains(key)`: true only for objects that carry the key. -/
def containsKey (j : Json) (key : String) : Bool :=
  (j.find? key).isSome

def isObj : Json → Bool
  | obj _ => true
  | _ => false

/-- Read access `j[key]` on a const document: yields the value when `j`
is an object carrying `key`, otherwise a field-access failure. -/
def atKey (j : Json) (key : String) : Except String Json :=
  match j.find? key with
  | some v => .ok v
  | none => .error ("cannot access field \"" ++ key ++ "\"")

/-- `.get<std::string>()`: succeeds exactly on strings. -/
def getStr : Json → Except String String
  | str s => .ok s
  | _ => .error "type must be string"

/-- `.get<bool>()`: succeeds exactly on booleans. -/
def getBool : Json → Except String Bool
  | bool b => .ok b
  | _ => .error "type must be boolean"

/-- `j.items()` as the tool iterates it: key/value pairs for objects,
index-string keys for arrays, an empty range for null, and a failed
`key()` call on the iterator for the remaining primitives. -/
def itemsOf : Json → Except String (List (String × Json))
  | obj kvs => .ok kvs
  | arr xs => .ok (xs.enum.map (fun iv => (toString iv.1, iv.2)))
  | null => .ok []
  | _ => .error "cannot use key() for non-object iterators"

end Json

/-- `using LangMap = std::map<std::string, std::string>` — modelled as an
association list; the tool only ever inserts into it and looks keys up,
never iterates it, so the list order is unobservable. -/
abbrev LangMap := List (String × String)

namespace LangMap

/-- `m.find(k)` (lookup only). -/
def find? (m : LangMap) (k : String) : Option String :=
  (List.find? (fun kv => kv.1 == k) m).map (fun kv => kv.2)

/-- `m[k] = v`: overwrite the binding of `k`, or add one. -/
def insert : LangMap → String → String → LangMap
  | [], k, v => [(k, v)]
  | kv :: rest, k, v =>
    if kv.1 == k then (k, v) :: rest else kv :: insert rest k v

/-- `m[k]` as used for reading in the renderer: `std::map::operator[]`
returns the mapped value when present and otherwise value-initializes
(empty string) a fresh entry — a mutation of the map. -/
def getOrInsert (m : LangMap) (k : String) : String × LangMap :=
  match m.find? k with
  | some v => (v, m)
  | none => ("", insert m k "")

end LangMap

/-- `struct AppOptions` with the defaults of the C++ member initializers. -/
structure AppOptions where
  pch : String := ""
  ns : String := ""
  languageEnum : String := ""
  headerFiles : List String := []
  chatMessageType : String := "constexpr auto"
  useCompileMacro : Bool := true
  usePragmaOnce : Bool := true

/-- The emitted literal for one variant: `"<processed>"`, wrapped in
`FMT_COMPILE(...)` exactly when `useCompileMacro` holds. -/
def litPart (opts : AppOptions) (processed : String) : String :=
  (if opts.useCompileMacro then "FMT_COMPILE(" else "")
    ++ "\"" ++ processed ++ "\""
    ++ (if opts.useCompileMacro then ")" else "")

/-- The index expression of one variant: the positional `langIndex` when
`languageEnum` is empty, otherwise the qualified enum cast built from the
language table lookup `langs[langId]` (which may insert). -/
def stepIndex (opts : AppOptions) (langs : LangMap) (idx : Nat)
    (langId : String) : String × LangMap :=
  if opts.languageEnum.isEmpty then (toString idx, langs)
  else
    let nl := LangMap.getOrInsert langs langId
    ("static_cast<int>(" ++ opts.languageEnum ++ "::" ++ nl.1 ++ ")", nl.2)

/-- The per-language loop of `parseChatJson` (lines 155-185): state is the
captured comment, the chunks appended to `langContent` (one per
iteration), `langIndex`, and the language table. -/
def renderVariants (opts : AppOptions) :
    String → List String → Nat → LangMap → List (String × Json) →
    Except String (String × List String × Nat × LangMap)
  | comment, lines, idx, langs, [] => .ok (comment, lines, idx, langs)
  | comment, lines, idx, langs, (langId, msgContent) :: rest =>
    match (if comment.isEmpty
           then (msgContent.atKey "comment").bind Json.getStr
           else .ok comment) with
    | .error e => .error e
    | .ok comment1 =>
      let il := stepIndex opts langs idx langId
      match (msgContent.atKey "processed").bind Json.getStr with
      | .error e => .error e
      | .ok processed =>
        renderVariants opts comment1
          (lines ++ ["\t\tresult[" ++ il.1 ++ "] = "
                      ++ litPart opts processed ++ ";\n"])
          (idx + 1) il.2 rest

/-- The `fmt::format_to` template of lines 187-206, braces and all. -/
def messageBlock (comment : String) (n : Nat) (langContent : String)
    (uniqueName : String) : String :=
  "// \"" ++ comment ++ "\"\n"
    ++ "class \n\t: public internal::ChatMessageBase\n"
    ++ "\x7b\n"
    ++ "\tstatic constexpr auto generateContent = []\n\t\x7b\n"
    ++ "\t\tstd::array<std::string_view, " ++ toString n ++ "> result;\n"
    ++ langContent
    ++ "\t\treturn result;\n"
    ++ "\t\x7d;\n"
    ++ "public:\n"
    ++ "\tstatic constexpr auto text = generateContent();\n"
    ++ "\x7d inline constexpr " ++ uniqueName ++ ";\n\n"

/-- Rendering of one recognized `chatMessages` entry (lines 153-206):
read `uniqueName`, iterate the `content` items, format the block. -/
def renderMessage (opts : AppOptions) (langs : LangMap) (value : Json) :
    Except String (String × LangMap) :=
  match (value.atKey "uniqueName").bind Json.getStr with
  | .error e => .error e
  | .ok uniqueName =>
    match value.atKey "content" with
    | .error e => .error e
    | .ok contentJ =>
      match contentJ.itemsOf with
      | .error e => .error e
      | .ok items =>
        match renderVariants opts "" [] 0 langs items with
        | .error e => .error e
        | .ok r =>
          .ok (messageBlock r.1 r.2.2.1 (String.join r.2.1) uniqueName, r.2.2.2)

/-- Entry filter of lines 148-152: an entry is rendered iff it is an
object containing both `uniqueName` and `content`. -/
def isMessageEntry (value : Json) : Bool :=
  value.isObj && value.containsKey "uniqueName" && value.containsKey "content"

/-- The `chatMessages` loop (lines 146-208): skipped entries contribute
nothing; rendered blocks are collected in document order (`chatContent`
is their concatenation), threading the language table through. -/
def renderMessages (opts : AppOptions) (langs : LangMap) :
    List Json → Except String (List String × LangMap)
  | [] => .ok ([], langs)
  | value :: rest =>
    if isMessageEntry value then
      match renderMessage opts langs value with
      | .error e => .error e
      | .ok bl =>
        match renderMessages opts bl.2 rest with
        | .error e => .error e
        | .ok br => .ok (bl.1 :: br.1, br.2)
    else renderMessages opts langs rest

/-- The `languages` loop (lines 128-137): each element must be an object;
`id`/`name` are read as strings and `langs[id] = name` is last-write-wins. -/
def buildLangMap (langs : LangMap) : List Json → Except String LangMap
  | [] => .ok langs
  | v :: rest =>
    if v.isObj then
      match (v.atKey "id").bind Json.getStr with
      | .error e => .error e
      | .ok id =>
        match (v.atKey "name").bind Json.getStr with
        | .error e => .error e
        | .ok name => buildLangMap (LangMap.insert langs id name) rest
    else .error "Could not parse JSON file - language content is not an object."

/-- Final assembly (lines 212-252): guard line, pch include, header
includes, two blank lines, namespace open, the unconditional base marker
type, all blocks, namespace close. -/
def assemble (opts : AppOptions) (chatContent : String) : String :=
  (if opts.usePragmaOnce then "#pragma once\n\n" else "")
    ++ (if opts.pch.isEmpty then "" else "#include " ++ opts.pch ++ "\n")
    ++ String.join (opts.headerFiles.map (fun h => "#include " ++ h ++ "\n"))
    ++ "\n\n"
    ++ (if opts.ns.isEmpty then ""
        else "namespace " ++ opts.ns ++ "\n\x7b\n\n")
    ++ "namespace internal \x7b\nstruct ChatMessageBase \x7b\x7d;\n\x7d\n\n"
    ++ chatContent
    ++ (if opts.ns.isEmpty then "" else "\n\x7d\n")

/-- `parseChatJson` (lines 108-253) over an already-parsed document. -/
def parseChatJson (opts : AppOptions) (j : Json) : Except String String :=
  if j.isObj then
    match j.find? "languages" with
    | some (Json.arr xs) =>
      (match buildLangMap [] xs with
       | .error e => .error e
       | .ok langs =>
         match j.find? "chatMessages" with
         | some (Json.arr msgs) =>
           (match renderMessages opts langs msgs with
            | .error e => .error e
            | .ok br => .ok (assemble opts (String.join br.1)))
         | _ => .error "Could not parse JSON file - \"chatMessages\" field not exists or is not an array."
      )
    | _ => .error "Could not parse JSON file - \"languages\" value is not an array."
  else .error "Could not parse JSON file - value is not an object."

/-- One `READ_OPTION(_, bool, name, boolean)` expansion. -/
def readOptBool (j : Json) (name : String) (dflt : Bool) :
    Except String Bool :=
  match j.find? name with
  | none => .ok dflt
  | some v =>
    match v with
    | Json.bool b => .ok b
    | _ => .error ("Could not parse options file - \"" ++ name
                    ++ "\" value is not a boolean.")

/-- One `READ_OPTION(_, std::string, name, string)` expansion. -/
def readOptStr (j : Json) (name : String) (dflt : String) :
    Except String String :=
  match j.find? name with
  | none => .ok dflt
  | some v =>
    match v with
    | Json.str s => .ok s
    | _ => .error ("Could not parse options file - \"" ++ name
                    ++ "\" value is not a string.")

/-- The `headerFiles` block of `readAppOptions` (lines 296-312): must be
an array when present; non-string elements are silently dropped. -/
def readHeaderFiles (j : Json) : Except String (List String) :=
  match j.find? "headerFiles" with
  | none => .ok []
  | some v =>
    match v with
    | Json.arr xs =>
      .ok (xs.filterMap (fun x => match x with
            | Json.str s => some s
            | _ => none))
    | _ => .error "Could not parse options file - \"headerFiles\" field not exists or is not an array."

/-- `readAppOptions` (lines 268-315): root must be an object; each
recognized field is read in source order, a thrown type mismatch
aborting the rest. -/
def readAppOptions (j : Json) : Except String AppOptions :=
  if j.isObj then
    (readOptBool j "useCompileMacro" true).bind fun useCompileMacro =>
    (readOptBool j "usePragmaOnce" true).bind fun usePragmaOnce =>
    (readOptStr j "languageEnum" "").bind fun languageEnum =>
    (readOptStr j "pch" "").bind fun pch =>
    (readOptStr j "namespace" "").bind fun ns =>
    (readOptStr j "chatMessageType" "constexpr auto").bind fun chatMessageType =>
    (readHeaderFiles j).bind fun headerFiles =>
    .ok { pch := pch, ns := ns, languageEnum := languageEnum,
          headerFiles := headerFiles, chatMessageType := chatMessageType,
          useCompileMacro := useCompileMacro, usePragmaOnce := usePragmaOnce }
  else .error "Could not parse options file - value is not an object."

/-- `main` after the files are opened: load the options, then render;
the output text exists only when both stages return. -/
def runPipeline (optsJson contentJson : Json) : Except String String :=
  (readAppOptions optsJson).bind fun opts => parseChatJson opts contentJson

/-! ### Structured message inputs

A well-formed variant is a triple (languageId, comment, processed); the
content document stores it as `languageId ↦ {comment, processed}`. -/

/-- One well-formed variant as it sits in the `content` object. -/
def mkVariantJson (v : String × String × String) : String × Json :=
  (v.1, Json.obj [("comment", Json.str v.2.1), ("processed", Json.str v.2.2)])

/-- A well-formed `chatMessages` entry. -/
def mkMessage (uniqueName : String) (vs : List (String × String × String)) :
    Json :=
  Json.obj [("uniqueName", Json.str uniqueName),
            ("content", Json.obj (vs.map mkVariantJson))]

/-- The comment value after folding the per-variant capture
`if (comment.empty()) comment = ...;` over the variants' comments. -/
def acquireComment (c0 : String) (cs : List String) : String :=
  cs.foldl (fun acc c => if acc.isEmpty then c else acc) c0

/-- First non-empty string of a list (empty when there is none). -/
def firstNonEmpty : List String → String
  | [] => ""
  | c :: rest => if c.isEmpty then firstNonEmpty rest else c

/-- The `langContent` chunks and final language table the loop produces
on well-formed variants, one chunk per variant. -/
def specVariants (opts : AppOptions) :
    Nat → LangMap → List (String × String × String) →
    List String × LangMap
  | _, langs, [] => ([], langs)
  | idx, langs, v :: rest =>
    let il := stepIndex opts langs idx v.1
    let out := specVariants opts (idx + 1) il.2 rest
    (("\t\tresult[" ++ il.1 ++ "] = " ++ litPart opts v.2.2 ++ ";\n")
       :: out.1,
     out.2)

theorem variant_comment_read (c p : String) :
    ((Json.obj [("comment", Json.str c), ("processed", Json.str p)]).atKey
        "comment").bind Json.getStr = .ok c := rfl

theorem variant_processed_read (c p : String) :
    ((Json.obj [("comment", Json.str c), ("processed", Json.str p)]).atKey
        "processed").bind Json.getStr = .ok p := rfl

theorem acquireComment_eq_firstNonEmpty (cs : List String) :
    ∀ c, acquireComment c cs = if c.isEmpty then firstNonEmpty cs else c := by
  induction cs with
  | nil =>
    intro c
    by_cases hc : c.isEmpty
    · simp only [hc, if_true, acquireComment, List.foldl_nil, firstNonEmpty]
      exact (String.isEmpty_iff c).1 hc
    · simp [acquireComment, hc]
  | cons c' cs ih =>
    intro c
    show acquireComment (if c.isEmpty then c' else c) cs = _
    rw [ih]
    by_cases hc : c.isEmpty
    · simp [hc, firstNonEmpty]
    · simp [hc]

/-- The per-language loop on well-formed variants never throws: it
returns the folded comment, appends one `result[...] = ...;` chunk per
variant, advances `langIndex` by the variant count, and threads the
language table exactly as `specVariants` does. -/
theorem renderVariants_wf (opts : AppOptions)
    (vs : List (String × String × String)) :
    ∀ comment lines idx langs,
    renderVariants opts comment lines idx langs (vs.map mkVariantJson) =
      .ok (acquireComment comment (vs.map (fun v => v.2.1)),
           lines ++ (specVariants opts idx langs vs).1,
           idx + vs.length,
           (specVariants opts idx langs vs).2) := by
  induction vs with
  | nil =>
    intro comment lines idx langs
    simp [renderVariants, specVariants, acquireComment]
  | cons v vs ih =>
    intro comment lines idx langs
    have hn : idx + 1 + vs.length = idx + (vs.length + 1) := by omega
    by_cases hc : comment.isEmpty
    · simp [renderVariants, hc, variant_comment_read, variant_processed_read,
        ih, specVariants, acquireComment, hn]
    · simp [renderVariants, hc, variant_comment_read, variant_processed_read,
        ih, specVariants, acquireComment, hn]

theorem mkMessage_uniqueName (nm : String)
    (vs : List (String × String × String)) :
    ((mkMessage nm vs).atKey "uniqueName").bind Json.getStr = .ok nm := rfl

theorem mkMessage_content (nm : String)
    (vs : List (String × String × String)) :
    (mkMessage nm vs).atKey "content" = .ok (Json.obj (vs.map mkVariantJson)) := rfl

/-- Rendering a well-formed message: the block carries the folded
comment, the variant count as array size, the joined chunks, and the
unique name; the language table comes back as `specVariants` leaves it. -/
theorem renderMessage_wf (opts : AppOptions) (langs : LangMap) (nm : String)
    (vs : List (String × String × String)) :
    renderMessage opts langs (mkMessage nm vs) =
      .ok (messageBlock (acquireComment "" (vs.map (fun v => v.2.1)))
             vs.length
             (String.join (specVariants opts 0 langs vs).1) nm,
           (specVariants opts 0 langs vs).2) := by
  have h0 : renderVariants opts "" [] 0 langs (vs.map mkVariantJson) =
      .ok (acquireComment "" (vs.map (fun v => v.2.1)),
           [] ++ (specVariants opts 0 langs vs).1,
           0 + vs.length,
           (specVariants opts 0 langs vs).2) := renderVariants_wf opts vs "" [] 0 langs
  simp only [List.nil_append, Nat.zero_add] at h0
  simp [renderMessage, mkMessage_uniqueName, mkMessage_content, Json.itemsOf, h0]

/-! ### Claims C1, C2 — comment capture -/

/-- C2: the rendered comment is the comment field of the first variant in
iteration order whose comment is non-empty (empty when all are empty); an
earlier empty comment does not block a later non-empty one. -/
theorem c2_comment_first_nonempty (opts : AppOptions) (langs : LangMap)
    (nm : String) (vs : List (String × String × String)) :
    renderMessage opts langs (mkMessage nm vs) =
      .ok (messageBlock (firstNonEmpty (vs.map (fun v => v.2.1))) vs.length
             (String.join (specVariants opts 0 langs vs).1) nm,
           (specVariants opts 0 langs vs).2) := by
  rw [renderMessage_wf, acquireComment_eq_firstNonEmpty]
  simp [String.isEmpty_iff]

/-- C1 fails on the code: with a first variant whose comment is the empty
string and a later variant with comment "b", the rendered comment is "b",
not the first variant's empty string. -/
theorem c1_counterexample :
    renderMessage {} [] (mkMessage "M" [("aa", "", "x"), ("bb", "b", "y")]) =
      .ok (messageBlock "b" 2
             (String.join ["\t\tresult[0] = FMT_COMPILE(\"x\");\n",
                           "\t\tresult[1] = FMT_COMPILE(\"y\");\n"]) "M",
           [])
      ∧ ("b" : String) ≠ "" := by
  exact ⟨rfl, by decide⟩

/-- C1 amended: for a message with at least one variant, the rendered
comment equals the first variant's comment when that comment is
non-empty; when the first variant's comment is the empty string, it
equals the first non-empty comment among the later variants instead. -/
theorem c1_amended (opts : AppOptions) (langs : LangMap)
    (nm lid c p : String) (rest : List (String × String × String)) :
    renderMessage opts langs (mkMessage nm ((lid, c, p) :: rest)) =
      .ok (messageBlock
             (if c.isEmpty then firstNonEmpty (rest.map (fun v => v.2.1))
              else c)
             (rest.length + 1)
             (String.join (specVariants opts 0 langs ((lid, c, p) :: rest)).1)
             nm,
           (specVariants opts 0 langs ((lid, c, p) :: rest)).2) := by
  rw [renderMessage_wf, acquireComment_eq_firstNonEmpty]
  simp [firstNonEmpty, String.isEmpty_iff]

/-! ### Claim C3 — unknown language id, non-empty languageEnum -/

/-- C3: a variant whose languageId is absent from the language table,
rendered with a non-empty `languageEnum`, succeeds (no UnknownLanguage
error) and emits the malformed reference `static_cast<int>(<enum>::)`
with an empty display name after the `::`; the table silently gains the
unknown id bound to the empty string. -/
theorem c3_unknown_language (opts : AppOptions) (langs : LangMap)
    (comment : String) (lines : List String) (idx : Nat) (lid c p : String)
    (henum : opts.languageEnum.isEmpty = false)
    (habs : LangMap.find? langs lid = none) :
    renderVariants opts comment lines idx langs
        [(lid, Json.obj [("comment", Json.str c), ("processed", Json.str p)])] =
      .ok ((if comment.isEmpty then c else comment),
           lines ++ ["\t\tresult[static_cast<int>(" ++ opts.languageEnum
                      ++ "::)] = " ++ litPart opts p ++ ";\n"],
           idx + 1,
           LangMap.insert langs lid "") := by
  have hlit : ("::" : String) ++ ")" = "::)" := rfl
  have hcat : ("\t\tresult[" : String) ++ "static_cast<int>(" =
      "\t\tresult[static_cast<int>(" := rfl
  have hres : ∀ r : String, ("\t\tresult[" : String)
      ++ ("static_cast<int>(" ++ r) = "\t\tresult[static_cast<int>(" ++ r := by
    intro r
    rw [← String.append_assoc, hcat]
  by_cases hc : comment.isEmpty
  · simp [renderVariants, hc, variant_comment_read, variant_processed_read,
      stepIndex, henum, LangMap.getOrInsert, habs, String.append_empty,
      String.append_assoc, hlit, hres]
  · simp [renderVariants, hc, variant_comment_read, variant_processed_read,
      stepIndex, henum, LangMap.getOrInsert, habs, String.append_empty,
      String.append_assoc, hlit, hres]

/-- Witness for C3 at a concrete unknown language id. -/
theorem c3_unknown_language_witness :
    renderVariants { languageEnum := "game::Lang" } "" [] 0 []
        [("xx", Json.obj [("comment", Json.str "c"),
                          ("processed", Json.str "Hi")])] =
      .ok ((if ("" : String).isEmpty then "c" else ""),
           [] ++ ["\t\tresult[static_cast<int>(" ++ "game::Lang"
                   ++ "::)] = " ++ litPart { languageEnum := "game::Lang" } "Hi"
                   ++ ";\n"],
           0 + 1,
           LangMap.insert [] "xx" "") :=
  c3_unknown_language { languageEnum := "game::Lang" } [] "" [] 0 "xx" "c" "Hi"
    rfl rfl

/-! ### Claim C6 — positional indices with empty languageEnum -/

theorem specVariants_empty_enum (opts : AppOptions)
    (h : opts.languageEnum.isEmpty = true)
    (vs : List (String × String × String)) :
    ∀ idx langs, specVariants opts idx langs vs =
      ((vs.enumFrom idx).map (fun iv =>
          "\t\tresult[" ++ toString iv.1 ++ "] = "
            ++ litPart opts iv.2.2.2 ++ ";\n"),
       langs) := by
  induction vs with
  | nil => intro idx langs; simp [specVariants]
  | cons v vs ih =>
    intro idx langs
    simp [specVariants, stepIndex, h, List.enumFrom_cons, ih]

/-- C6: with an empty `languageEnum`, a message with N variants renders
an array declaration of size N and one assignment line per variant whose
indices are the positions 0..N-1 in variant iteration order (each used
exactly once); with zero variants the block declares a zero-sized array,
emits no assignment lines, and rendering still succeeds. -/
theorem c6_positional_indices (opts : AppOptions) (langs : LangMap)
    (nm : String) (vs : List (String × String × String))
    (h : opts.languageEnum.isEmpty = true) :
    renderMessage opts langs (mkMessage nm vs) =
      .ok (messageBlock (acquireComment "" (vs.map (fun v => v.2.1)))
             vs.length
             (String.join (vs.enum.map (fun iv =>
                "\t\tresult[" ++ toString iv.1 ++ "] = "
                  ++ litPart opts iv.2.2.2 ++ ";\n"))) nm,
           langs)
      ∧ vs.enum.map Prod.fst = List.range vs.length
      ∧ (vs.enum.map Prod.fst).Nodup
      ∧ renderMessage opts langs (mkMessage nm []) =
          .ok (messageBlock "" 0 "" nm, langs) := by
  refine ⟨?_, List.enum_map_fst vs, ?_, ?_⟩
  · rw [renderMessage_wf, specVariants_empty_enum opts h vs 0 langs]
    simp [List.enum]
  · rw [List.enum_map_fst vs]
    exact List.nodup_range vs.length
  · rw [renderMessage_wf, specVariants_empty_enum opts h [] 0 langs]
    rfl

/-- Witness for C6 with two variants under the default options. -/
theorem c6_positional_indices_witness :
    (renderMessage {} [] (mkMessage "Greeting" [("en", "c", "Hi"), ("de", "k", "Ho")]) =
      .ok (messageBlock
             (acquireComment ""
               ([("en", "c", "Hi"), ("de", "k", "Ho")].map (fun v => v.2.1)))
             ([("en", "c", "Hi"), ("de", "k", "Ho")] :
                List (String × String × String)).length
             (String.join (([("en", "c", "Hi"), ("de", "k", "Ho")] :
                List (String × String × String)).enum.map (fun iv =>
                  "\t\tresult[" ++ toString iv.1 ++ "] = "
                    ++ litPart {} iv.2.2.2 ++ ";\n"))) "Greeting",
           [])
      ∧ ([("en", "c", "Hi"), ("de", "k", "Ho")] :
          List (String × String × String)).enum.map Prod.fst =
            List.range ([("en", "c", "Hi"), ("de", "k", "Ho")] :
              List (String × String × String)).length
      ∧ (([("en", "c", "Hi"), ("de", "k", "Ho")] :
          List (String × String × String)).enum.map Prod.fst).Nodup
      ∧ renderMessage {} [] (mkMessage "Greeting" []) =
          .ok (messageBlock "" 0 "" "Greeting", [])) :=
  c6_positional_indices {} [] "Greeting" [("en", "c", "Hi"), ("de", "k", "Ho")]
    rfl

/-! ### Claim C8 — FMT_COMPILE wrapping -/

/-- C8: the rendered block stores each variant's literal through
`litPart`; with `useCompileMacro` false the emitted literal is the bare
quoted string (the renderer contributes no FMT_COMPILE marker anywhere in
the block), and with it true every literal is wrapped in
`FMT_COMPILE(...)`. -/
theorem c8_compile_macro (opts : AppOptions) (langs : LangMap)
    (nm : String) (vs : List (String × String × String)) :
    renderMessage opts langs (mkMessage nm vs) =
      .ok (messageBlock (acquireComment "" (vs.map (fun v => v.2.1)))
             vs.length
             (String.join (specVariants opts 0 langs vs).1) nm,
           (specVariants opts 0 langs vs).2)
      ∧ (∀ p, litPart { opts with useCompileMacro := false } p =
          "\"" ++ p ++ "\"")
      ∧ (∀ p, litPart { opts with useCompileMacro := true } p =
          "FMT_COMPILE(" ++ "\"" ++ p ++ "\"" ++ ")") := by
  refine ⟨renderMessage_wf opts langs nm vs, fun p => ?_, fun p => ?_⟩
  · simp [litPart, String.append_empty, String.empty_append]
  · simp [litPart]

/-! ### Claim C4 — language table mutation during rendering -/

theorem LangMap.find?_cons (kv : String × String) (m : LangMap) (k' : String) :
    LangMap.find? (kv :: m) k' =
      if kv.1 == k' then some kv.2 else LangMap.find? m k' := by
  by_cases h : (kv.1 == k') = true
  · simp [LangMap.find?, List.find?, h]
  · simp only [Bool.not_eq_true] at h
    simp [LangMap.find?, List.find?, h]

theorem LangMap.find?_insert (m : LangMap) (k v : String) :
    ∀ k', LangMap.find? (LangMap.insert m k v) k' =
      if k' = k then some v else LangMap.find? m k' := by
  induction m with
  | nil =>
    intro k'
    rw [show LangMap.insert [] k v = [(k, v)] from rfl, LangMap.find?_cons]
    by_cases h : k' = k
    · subst h
      simp
    · have hb : (k == k') = false := beq_eq_false_iff_ne.mpr (Ne.symm h)
      simp [hb, h, LangMap.find?, List.find?]
  | cons kv rest ih =>
    intro k'
    by_cases h1 : kv.1 = k
    · have hb1 : (kv.1 == k) = true := beq_iff_eq.mpr h1
      rw [show LangMap.insert (kv :: rest) k v = (k, v) :: rest from by
            simp [LangMap.insert, hb1],
          LangMap.find?_cons, LangMap.find?_cons]
      by_cases h2 : k' = k
      · subst h2
        simp
      · have hb2 : (k == k') = false := beq_eq_false_iff_ne.mpr (Ne.symm h2)
        have hb3 : (kv.1 == k') = false :=
          beq_eq_false_iff_ne.mpr (fun hx => h2 (hx.symm.trans h1))
        simp [hb2, hb3, h2]
    · have hb1 : (kv.1 == k) = false := beq_eq_false_iff_ne.mpr h1
      rw [show LangMap.insert (kv :: rest) k v = kv :: LangMap.insert rest k v
            from by simp [LangMap.insert, hb1],
          LangMap.find?_cons, LangMap.find?_cons, ih]
      by_cases h2 : k' = kv.1
      · have hb2 : (kv.1 == k') = true := beq_iff_eq.mpr h2.symm
        have hk : ¬k' = k := fun hx => h1 (h2.symm.trans hx)
        simp [hb2, hk]
      · have hb2 : (kv.1 == k') = false :=
          beq_eq_false_iff_ne.mpr (fun hx => h2 hx.symm)
        simp [hb2]

theorem stepIndex_preserves (opts : AppOptions) (langs : LangMap)
    (idx : Nat) (lid : String) :
    ((∀ k v, LangMap.find? langs k = some v →
        LangMap.find? (stepIndex opts langs idx lid).2 k = some v) ∧
     (∀ k, LangMap.find? langs k = none →
        LangMap.find? (stepIndex opts langs idx lid).2 k = none ∨
        LangMap.find? (stepIndex opts langs idx lid).2 k = some "")) := by
  by_cases he : opts.languageEnum.isEmpty
  · refine ⟨fun k v hv => ?_, fun k hn => Or.inl ?_⟩ <;>
      simpa [stepIndex, he]
  · cases hf : LangMap.find? langs lid with
    | some v0 =>
      refine ⟨fun k v hv => ?_, fun k hn => Or.inl ?_⟩ <;>
        simpa [stepIndex, he, LangMap.getOrInsert, hf]
    | none =>
      constructor
      · intro k v hv
        have hne : ¬k = lid := fun hx => by
          rw [hx, hf] at hv
          exact Option.noConfusion hv
        simpa [stepIndex, he, LangMap.getOrInsert, hf, LangMap.find?_insert,
          hne] using hv
      · intro k hn
        by_cases hk : k = lid
        · right
          simp [stepIndex, he, LangMap.getOrInsert, hf, LangMap.find?_insert, hk]
        · left
          simp [stepIndex, he, LangMap.getOrInsert, hf, LangMap.find?_insert,
            hk, hn]

theorem renderVariants_preserves (opts : AppOptions) :
    ∀ (items : List (String × Json)) (comment : String) (lines : List String)
      (idx : Nat) (langs : LangMap) (res : String × List String × Nat × LangMap),
    renderVariants opts comment lines idx langs items = .ok res →
    ((∀ k v, LangMap.find? langs k = some v →
        LangMap.find? res.2.2.2 k = some v) ∧
     (∀ k, LangMap.find? langs k = none →
        LangMap.find? res.2.2.2 k = none ∨
        LangMap.find? res.2.2.2 k = some "")) := by
  intro items
  induction items with
  | nil =>
    intro comment lines idx langs res h
    simp only [renderVariants, Except.ok.injEq] at h
    subst h
    exact ⟨fun k v hv => hv, fun k hn => Or.inl hn⟩
  | cons it rest ih =>
    intro comment lines idx langs res h
    obtain ⟨lid, mc⟩ := it
    simp only [renderVariants] at h
    split at h
    · exact absurd h (by simp)
    · split at h
      · exact absurd h (by simp)
      · have hstep := stepIndex_preserves opts langs idx lid
        have hih := ih _ _ _ _ _ h
        constructor
        · intro k v hv
          exact hih.1 k v (hstep.1 k v hv)
        · intro k hn
          rcases hstep.2 k hn with h0 | h0
          · exact hih.2 k h0
          · exact Or.inr (hih.1 k "" h0)

theorem renderVariants_langs_of_empty_enum (opts : AppOptions)
    (he : opts.languageEnum.isEmpty = true) :
    ∀ (items : List (String × Json)) (comment : String) (lines : List String)
      (idx : Nat) (langs : LangMap) (res : String × List String × Nat × LangMap),
    renderVariants opts comment lines idx langs items = .ok res →
    res.2.2.2 = langs := by
  intro items
  induction items with
  | nil =>
    intro comment lines idx langs res h
    simp only [renderVariants, Except.ok.injEq] at h
    subst h
    rfl
  | cons it rest ih =>
    intro comment lines idx langs res h
    obtain ⟨lid, mc⟩ := it
    simp only [renderVariants] at h
    split at h
    · exact absurd h (by simp)
    · split at h
      · exact absurd h (by simp)
      · have := ih _ _ _ _ _ h
        rwa [stepIndex, he, if_pos rfl] at this

theorem renderMessage_preserves (opts : AppOptions) (langs : LangMap)
    (value : Json) (res : String × LangMap)
    (h : renderMessage opts langs value = .ok res) :
    ((∀ k v, LangMap.find? langs k = some v →
        LangMap.find? res.2 k = some v) ∧
     (∀ k, LangMap.find? langs k = none →
        LangMap.find? res.2 k = none ∨ LangMap.find? res.2 k = some "")) ∧
    (opts.languageEnum.isEmpty = true → res.2 = langs) := by
  simp only [renderMessage] at h
  split at h
  · exact absurd h (by simp)
  · split at h
    · exact absurd h (by simp)
    · split at h
      · exact absurd h (by simp)
      · split at h
        · exact absurd h (by simp)
        · rename_i r hr
          simp only [Except.ok.injEq] at h
          subst h
          refine ⟨⟨fun k v hv => ?_, fun k hn => ?_⟩, fun he => ?_⟩
          · exact (renderVariants_preserves opts _ "" [] 0 langs r hr).1 k v hv
          · exact (renderVariants_preserves opts _ "" [] 0 langs r hr).2 k hn
          · exact renderVariants_langs_of_empty_enum opts he _ "" [] 0 langs r hr

theorem renderMessages_preserves (opts : AppOptions) :
    ∀ (entries : List Json) (langs : LangMap) (res : List String × LangMap),
    renderMessages opts langs entries = .ok res →
    ((∀ k v, LangMap.find? langs k = some v →
        LangMap.find? res.2 k = some v) ∧
     (∀ k, LangMap.find? langs k = none →
        LangMap.find? res.2 k = none ∨ LangMap.find? res.2 k = some "")) ∧
    (opts.languageEnum.isEmpty = true → res.2 = langs) := by
  intro entries
  induction entries with
  | nil =>
    intro langs res h
    simp only [renderMessages, Except.ok.injEq] at h
    subst h
    exact ⟨⟨fun k v hv => hv, fun k hn => Or.inl hn⟩, fun _ => rfl⟩
  | cons value rest ih =>
    intro langs res h
    simp only [renderMessages] at h
    by_cases hm : isMessageEntry value
    · rw [if_pos hm] at h
      split at h
      · exact absurd h (by simp)
      · rename_i bl hbl
        split at h
        · exact absurd h (by simp)
        · rename_i br hbr
          simp only [Except.ok.injEq] at h
          subst h
          have h1 := renderMessage_preserves opts langs value bl hbl
          have h2 := ih bl.2 br hbr
          refine ⟨⟨fun k v hv => ?_, fun k hn => ?_⟩, fun he => ?_⟩
          · exact h2.1.1 k v (h1.1.1 k v hv)
          · rcases h1.1.2 k hn with h0 | h0
            · exact h2.1.2 k h0
            · exact Or.inr (h2.1.1 k "" h0)
          · rw [h2.2 he, h1.2 he]
    · rw [if_neg hm] at h
      exact ih langs res h

/-- C4 fails on the code: rendering one message whose languageId "xx" is
absent from the (empty) language table, with a non-empty `languageEnum`,
adds the entry ("xx", "") to the table — `std::map::operator[]` inserts. -/
theorem c4_counterexample :
    renderMessages { languageEnum := "Lang" } []
        [mkMessage "A" [("xx", "c", "p")]] =
      .ok ([messageBlock "c" 1
              (String.join ["\t\tresult[static_cast<int>(Lang::)] = "
                              ++ litPart { languageEnum := "Lang" } "p"
                              ++ ";\n"])
              "A"],
           [("xx", "")])
      ∧ ([("xx", "")] : LangMap) ≠ ([] : LangMap) :=
  ⟨rfl, by decide⟩

/-- C4 amended: rendering never removes or changes an existing language
table entry, and when `languageEnum` is empty the table is returned
exactly as built; but when `languageEnum` is non-empty, rendering a
variant whose languageId is absent adds an entry mapping that id to the
empty string (any key newly bound after rendering is bound to ""). -/
theorem c4_amended (opts : AppOptions) (langs : LangMap) (msgs : List Json)
    (res : List String × LangMap)
    (h : renderMessages opts langs msgs = .ok res) :
    (opts.languageEnum.isEmpty = true → res.2 = langs)
    ∧ (∀ k v, LangMap.find? langs k = some v →
        LangMap.find? res.2 k = some v)
    ∧ (∀ k, LangMap.find? langs k = none →
        LangMap.find? res.2 k = none ∨ LangMap.find? res.2 k = some "") := by
  have hp := renderMessages_preserves opts msgs langs res h
  exact ⟨hp.2, hp.1.1, hp.1.2⟩

/-- Witness for C4 (amended) on a concrete one-message document. -/
theorem c4_amended_witness :
    LangMap.find?
        ([messageBlock "c" 1
            (String.join ["\t\tresult[0] = " ++ litPart {} "x" ++ ";\n"])
            "A"],
         ([("en", "English")] : LangMap)).2 "en" = some "English"
    ∧ ([messageBlock "c" 1
          (String.join ["\t\tresult[0] = " ++ litPart {} "x" ++ ";\n"])
          "A"],
       ([("en", "English")] : LangMap)).2 = [("en", "English")] := by
  have hc := c4_amended {} [("en", "English")]
    [mkMessage "A" [("en", "c", "x")]]
    ([messageBlock "c" 1
        (String.join ["\t\tresult[0] = " ++ litPart {} "x" ++ ";\n"]) "A"],
     [("en", "English")]) rfl
  exact ⟨hc.2.1 "en" "English" rfl, hc.1 rfl⟩

/-! ### Claim C5 — rendered block count -/

theorem renderMessages_length (opts : AppOptions) :
    ∀ (entries : List Json) (langs : LangMap) (res : List String × LangMap),
    renderMessages opts langs entries = .ok res →
    res.1.length = (entries.filter isMessageEntry).length := by
  intro entries
  induction entries with
  | nil =>
    intro langs res h
    simp only [renderMessages, Except.ok.injEq] at h
    subst h
    simp
  | cons value rest ih =>
    intro langs res h
    simp only [renderMessages] at h
    by_cases hm : isMessageEntry value
    · rw [if_pos hm] at h
      split at h
      · exact absurd h (by simp)
      · rename_i bl hbl
        split at h
        · exact absurd h (by simp)
        · rename_i br hbr
          simp only [Except.ok.injEq] at h
          subst h
          simp [List.filter, hm, ih bl.2 br hbr]
    · rw [if_neg hm] at h
      have hm' : isMessageEntry value = false := by simpa using hm
      simp [List.filter, hm', ih langs res h]

theorem renderMessages_skip_all (opts : AppOptions) :
    ∀ (es : List Json) (langs : LangMap),
    (∀ e ∈ es, isMessageEntry e = false) →
    renderMessages opts langs es = .ok ([], langs) := by
  intro es
  induction es with
  | nil => intro langs _; rfl
  | cons e rest ih =>
    intro langs hall
    have he : isMessageEntry e = false := hall e (List.mem_cons_self e rest)
    simp only [renderMessages, he, Bool.false_eq_true, if_false]
    exact ih langs (fun x hx => hall x (List.mem_cons_of_mem e hx))

/-- C5 fails on the code: a `chatMessages` entry that is an object with
both `uniqueName` and `content` keys, but whose `uniqueName` value is a
number, makes the whole run throw a type error — the output has no
blocks even though one qualifying entry exists, contradicting the
claimed universal count (and the claimed absence of errors). -/
theorem c5_counterexample :
    parseChatJson {}
        (Json.obj [("languages", Json.arr []),
                   ("chatMessages", Json.arr
                      [Json.obj [("uniqueName", Json.num 5),
                                 ("content", Json.obj [])]])]) =
      .error "type must be string"
    ∧ (List.filter isMessageEntry
        [Json.obj [("uniqueName", Json.num 5),
                   ("content", Json.obj [])]]).length = 1 :=
  ⟨rfl, rfl⟩

/-- C5 amended: whenever the message loop completes without an error,
the number of rendered blocks equals the number of entries that are
objects containing both `uniqueName` and `content`; entries failing that
test are always skipped without error (a document of only such entries
renders zero blocks and succeeds). A qualifying entry with ill-typed
`uniqueName`/`content` innards instead aborts the run with an error. -/
theorem c5_amended (opts : AppOptions) (langs : LangMap)
    (entries : List Json) (res : List String × LangMap)
    (h : renderMessages opts langs entries = .ok res) :
    res.1.length = (entries.filter isMessageEntry).length
    ∧ (∀ es : List Json, (∀ e ∈ es, isMessageEntry e = false) →
        renderMessages opts langs es = .ok ([], langs)) :=
  ⟨renderMessages_length opts entries langs res h,
   fun es hall => renderMessages_skip_all opts es langs hall⟩

/-- Witness for C5 (amended) on a three-entry document with exactly one
qualifying message. -/
theorem c5_amended_witness :
    ([messageBlock "c" 1
        (String.join ["\t\tresult[0] = " ++ litPart {} "x" ++ ";\n"])
        "A"] : List String).length =
      (List.filter isMessageEntry
        [Json.null, mkMessage "A" [("en", "c", "x")], Json.bool true]).length
    ∧ renderMessages {} [] [Json.null] = .ok ([], []) := by
  have hc := c5_amended {} []
    [Json.null, mkMessage "A" [("en", "c", "x")], Json.bool true]
    ([messageBlock "c" 1
        (String.join ["\t\tresult[0] = " ++ litPart {} "x" ++ ";\n"]) "A"],
     []) rfl
  refine ⟨hc.1, hc.2 [Json.null] ?_⟩
  intro e he
  simp only [List.mem_singleton] at he
  subst he
  rfl

/-! ### Claim C9 — document assembly order -/

/-- C9: a successful run assembles exactly: the `#pragma once` guard iff
`usePragmaOnce` (true by default), the pch include iff `pch` non-empty,
one include per `headerFiles` entry in order, two blank lines, the
namespace opener iff `ns` non-empty, the unconditional shared
`internal::ChatMessageBase` declaration, all message blocks in document
order, and the namespace closer iff `ns` non-empty. -/
theorem c9_assembly_order (opts : AppOptions) (j : Json) (out : String)
    (h : parseChatJson opts j = .ok out) :
    (∃ xs langs msgs br,
      j.find? "languages" = some (Json.arr xs)
      ∧ buildLangMap [] xs = .ok langs
      ∧ j.find? "chatMessages" = some (Json.arr msgs)
      ∧ renderMessages opts langs msgs = .ok br
      ∧ out =
          (if opts.usePragmaOnce then "#pragma once\n\n" else "")
          ++ (if opts.pch.isEmpty then ""
              else "#include " ++ opts.pch ++ "\n")
          ++ String.join (opts.headerFiles.map
              (fun hf => "#include " ++ hf ++ "\n"))
          ++ "\n\n"
          ++ (if opts.ns.isEmpty then ""
              else "namespace " ++ opts.ns ++ "\n\x7b\n\n")
          ++ "namespace internal \x7b\nstruct ChatMessageBase \x7b\x7d;\n\x7d\n\n"
          ++ String.join br.1
          ++ (if opts.ns.isEmpty then "" else "\n\x7d\n"))
    ∧ ({} : AppOptions).usePragmaOnce = true := by
  refine ⟨?_, rfl⟩
  simp only [parseChatJson] at h
  split at h
  · split at h
    · rename_i hobj xs hfind1
      split at h
      · exact absurd h (by simp)
      · rename_i langs hlangs
        split at h
        · rename_i msgs hfind2
          split at h
          · exact absurd h (by simp)
          · rename_i br hbr
            simp only [Except.ok.injEq] at h
            subst h
            exact ⟨xs, langs, msgs, br, hfind1, hlangs, hfind2, hbr, rfl⟩
        · exact absurd h (by simp)
    · exact absurd h (by simp)
  · exact absurd h (by simp)

/-- Witness for C9 on a concrete one-message document. -/
theorem c9_assembly_order_witness :
    (∃ xs langs msgs br,
      (Json.obj [("languages", Json.arr []),
                 ("chatMessages", Json.arr [mkMessage "A" [("en", "c", "x")]])]
        ).find? "languages" = some (Json.arr xs)
      ∧ buildLangMap [] xs = .ok langs
      ∧ (Json.obj [("languages", Json.arr []),
                   ("chatMessages", Json.arr [mkMessage "A" [("en", "c", "x")]])]
          ).find? "chatMessages" = some (Json.arr msgs)
      ∧ renderMessages {} langs msgs = .ok br
      ∧ assemble {} (String.join
            [messageBlock "c" 1
              (String.join ["\t\tresult[0] = " ++ litPart {} "x" ++ ";\n"])
              "A"]) =
          (if ({} : AppOptions).usePragmaOnce then "#pragma once\n\n" else "")
          ++ (if ({} : AppOptions).pch.isEmpty then ""
              else "#include " ++ ({} : AppOptions).pch ++ "\n")
          ++ String.join (({} : AppOptions).headerFiles.map
              (fun hf => "#include " ++ hf ++ "\n"))
          ++ "\n\n"
          ++ (if ({} : AppOptions).ns.isEmpty then ""
              else "namespace " ++ ({} : AppOptions).ns ++ "\n\x7b\n\n")
          ++ "namespace internal \x7b\nstruct ChatMessageBase \x7b\x7d;\n\x7d\n\n"
          ++ String.join br.1
          ++ (if ({} : AppOptions).ns.isEmpty then "" else "\n\x7d\n"))
    ∧ ({} : AppOptions).usePragmaOnce = true :=
  c9_assembly_order {}
    (Json.obj [("languages", Json.arr []),
               ("chatMessages", Json.arr [mkMessage "A" [("en", "c", "x")]])])
    (assemble {} (String.join
       [messageBlock "c" 1
         (String.join ["\t\tresult[0] = " ++ litPart {} "x" ++ ";\n"]) "A"]))
    rfl

/-! ### Claim C10 — chatMessageType does not influence rendering -/

theorem renderVariants_cmt (p n l : String) (hf : List String)
    (c c' : String) (u g : Bool) :
    ∀ (items : List (String × Json)) (comment : String) (lines : List String)
      (idx : Nat) (langs : LangMap),
    renderVariants ⟨p, n, l, hf, c, u, g⟩ comment lines idx langs items =
    renderVariants ⟨p, n, l, hf, c', u, g⟩ comment lines idx langs items := by
  intro items
  induction items with
  | nil => intro comment lines idx langs; rfl
  | cons it rest ih =>
    intro comment lines idx langs
    obtain ⟨lid, mc⟩ := it
    simp only [renderVariants]
    cases hci : (if comment.isEmpty
                 then (mc.atKey "comment").bind Json.getStr
                 else .ok comment) with
    | error e => rfl
    | ok c1 =>
      cases hpr : (mc.atKey "processed").bind Json.getStr with
      | error e => rfl
      | ok pr => exact ih _ _ _ _

theorem renderMessage_cmt (p n l : String) (hf : List String)
    (c c' : String) (u g : Bool) (langs : LangMap) (value : Json) :
    renderMessage ⟨p, n, l, hf, c, u, g⟩ langs value =
    renderMessage ⟨p, n, l, hf, c', u, g⟩ langs value := by
  simp only [renderMessage, renderVariants_cmt p n l hf c c' u g]

theorem renderMessages_cmt (p n l : String) (hf : List String)
    (c c' : String) (u g : Bool) :
    ∀ (entries : List Json) (langs : LangMap),
    renderMessages ⟨p, n, l, hf, c, u, g⟩ langs entries =
    renderMessages ⟨p, n, l, hf, c', u, g⟩ langs entries := by
  intro entries
  induction entries with
  | nil => intro langs; rfl
  | cons value rest ih =>
    intro langs
    simp only [renderMessages,
      renderMessage_cmt p n l hf c c' u g langs value, ih]

theorem assemble_cmt (p n l : String) (hf : List String)
    (c c' : String) (u g : Bool) (s : String) :
    assemble ⟨p, n, l, hf, c, u, g⟩ s =
    assemble ⟨p, n, l, hf, c', u, g⟩ s := rfl

theorem parseChatJson_cmt (p n l : String) (hf : List String)
    (c c' : String) (u g : Bool) (j : Json) :
    parseChatJson ⟨p, n, l, hf, c, u, g⟩ j =
    parseChatJson ⟨p, n, l, hf, c', u, g⟩ j := by
  simp only [parseChatJson, renderMessages_cmt p n l hf c c' u g,
    assemble_cmt p n l hf c c' u g]

/-- C10: the `chatMessageType` option never influences rendering — two
option records differing only in `chatMessageType` produce identical
output on every content document. -/
theorem c10_chatMessageType_inert (opts : AppOptions) (s : String)
    (j : Json) :
    parseChatJson { opts with chatMessageType := s } j =
      parseChatJson opts j := by
  obtain ⟨p, n, l, hf, c, u, g⟩ := opts
  exact parseChatJson_cmt p n l hf s c u g j

/-! ### Claim C7 — options type mismatches -/

def Json.isBool : Json → Bool
  | Json.bool _ => true
  | _ => false

def Json.isStr : Json → Bool
  | Json.str _ => true
  | _ => false

def Json.isArr : Json → Bool
  | Json.arr _ => true
  | _ => false

/-- The recognized boolean-typed options fields. -/
def boolFields : List String := ["useCompileMacro", "usePragmaOnce"]

/-- The recognized options fields, in the order `readAppOptions` checks
them. -/
def checkOrder : List String :=
  ["useCompileMacro", "usePragmaOnce", "languageEnum", "pch",
   "namespace", "chatMessageType", "headerFiles"]

/-- Whether a present value has the JSON type `readAppOptions` expects
for the given recognized field. -/
def expectedTypeOk (f : String) (v : Json) : Bool :=
  if f ∈ boolFields then v.isBool
  else if f = "headerFiles" then v.isArr
  else v.isStr

/-- The field is present in the options document with the wrong JSON
type. -/
def fieldMismatch (j : Json) (f : String) : Bool :=
  match j.find? f with
  | some v => !(expectedTypeOk f v)
  | none => false

/-- The exception message `readAppOptions` throws for a type mismatch on
the given recognized field. -/
def mismatchMsg (f : String) : String :=
  if f ∈ boolFields then
    "Could not parse options file - \"" ++ f ++ "\" value is not a boolean."
  else if f = "headerFiles" then
    "Could not parse options file - \"headerFiles\" field not exists or is not an array."
  else
    "Could not parse options file - \"" ++ f ++ "\" value is not a string."

/-- Per-field absence: the loaded record keeps the C++ default. -/
def absentDefaults (j : Json) (o : AppOptions) : Prop :=
  (j.find? "pch" = none → o.pch = "")
  ∧ (j.find? "namespace" = none → o.ns = "")
  ∧ (j.find? "languageEnum" = none → o.languageEnum = "")
  ∧ (j.find? "headerFiles" = none → o.headerFiles = [])
  ∧ (j.find? "chatMessageType" = none → o.chatMessageType = "constexpr auto")
  ∧ (j.find? "useCompileMacro" = none → o.useCompileMacro = true)
  ∧ (j.find? "usePragmaOnce" = none → o.usePragmaOnce = true)

theorem readOptBool_ok (j : Json) (f : String) (d : Bool)
    (hf : f ∈ boolFields) (hm : fieldMismatch j f = false) :
    ∃ b, readOptBool j f d = .ok b := by
  unfold readOptBool
  cases hj : j.find? f with
  | none => exact ⟨d, rfl⟩
  | some v =>
    have hty : expectedTypeOk f v = true := by
      unfold fieldMismatch at hm
      rw [hj] at hm
      simpa using hm
    unfold expectedTypeOk at hty
    rw [if_pos hf] at hty
    rcases v with _ | b | m | s | a | o
    · exact absurd hty (by simp [Json.isBool])
    · exact ⟨b, rfl⟩
    · exact absurd hty (by simp [Json.isBool])
    · exact absurd hty (by simp [Json.isBool])
    · exact absurd hty (by simp [Json.isBool])
    · exact absurd hty (by simp [Json.isBool])

theorem readOptBool_mismatch (j : Json) (f : String) (d : Bool)
    (hf : f ∈ boolFields) (hm : fieldMismatch j f = true) :
    readOptBool j f d = .error (mismatchMsg f) := by
  unfold readOptBool
  unfold mismatchMsg
  rw [if_pos hf]
  cases hj : j.find? f with
  | none =>
    unfold fieldMismatch at hm
    rw [hj] at hm
    exact absurd hm (by simp)
  | some v =>
    have hty : expectedTypeOk f v = false := by
      unfold fieldMismatch at hm
      rw [hj] at hm
      simpa using hm
    unfold expectedTypeOk at hty
    rw [if_pos hf] at hty
    rcases v with _ | b | m | s | a | o
    · rfl
    · exact absurd hty (by simp [Json.isBool])
    · rfl
    · rfl
    · rfl
    · rfl

theorem readOptStr_ok (j : Json) (f : String) (d : String)
    (hf1 : f ∉ boolFields) (hf2 : ¬f = "headerFiles")
    (hm : fieldMismatch j f = false) :
    ∃ s, readOptStr j f d = .ok s := by
  unfold readOptStr
  cases hj : j.find? f with
  | none => exact ⟨d, rfl⟩
  | some v =>
    have hty : expectedTypeOk f v = true := by
      unfold fieldMismatch at hm
      rw [hj] at hm
      simpa using hm
    unfold expectedTypeOk at hty
    rw [if_neg hf1, if_neg hf2] at hty
    rcases v with _ | b | m | s | a | o
    · exact absurd hty (by simp [Json.isStr])
    · exact absurd hty (by simp [Json.isStr])
    · exact absurd hty (by simp [Json.isStr])
    · exact ⟨s, rfl⟩
    · exact absurd hty (by simp [Json.isStr])
    · exact absurd hty (by simp [Json.isStr])

theorem readOptStr_mismatch (j : Json) (f : String) (d : String)
    (hf1 : f ∉ boolFields) (hf2 : ¬f = "headerFiles")
    (hm : fieldMismatch j f = true) :
    readOptStr j f d = .error (mismatchMsg f) := by
  unfold readOptStr
  unfold mismatchMsg
  rw [if_neg hf1, if_neg hf2]
  cases hj : j.find? f with
  | none =>
    unfold fieldMismatch at hm
    rw [hj] at hm
    exact absurd hm (by simp)
  | some v =>
    have hty : expectedTypeOk f v = false := by
      unfold fieldMismatch at hm
      rw [hj] at hm
      simpa using hm
    unfold expectedTypeOk at hty
    rw [if_neg hf1, if_neg hf2] at hty
    rcases v with _ | b | m | s | a | o
    · rfl
    · rfl
    · rfl
    · exact absurd hty (by simp [Json.isStr])
    · rfl
    · rfl

theorem readHeaderFiles_ok (j : Json)
    (hm : fieldMismatch j "headerFiles" = false) :
    ∃ hs, readHeaderFiles j = .ok hs := by
  unfold readHeaderFiles
  cases hj : j.find? "headerFiles" with
  | none => exact ⟨[], rfl⟩
  | some v =>
    have hty : expectedTypeOk "headerFiles" v = true := by
      unfold fieldMismatch at hm
      rw [hj] at hm
      simpa using hm
    unfold expectedTypeOk at hty
    rw [if_neg (by decide : ¬("headerFiles" ∈ boolFields)), if_pos rfl] at hty
    rcases v with _ | b | m | s | a | o
    · exact absurd hty (by simp [Json.isArr])
    · exact absurd hty (by simp [Json.isArr])
    · exact absurd hty (by simp [Json.isArr])
    · exact absurd hty (by simp [Json.isArr])
    · exact ⟨_, rfl⟩
    · exact absurd hty (by simp [Json.isArr])

theorem readHeaderFiles_mismatch (j : Json)
    (hm : fieldMismatch j "headerFiles" = true) :
    readHeaderFiles j = .error (mismatchMsg "headerFiles") := by
  unfold readHeaderFiles
  unfold mismatchMsg
  rw [if_neg (by decide : ¬("headerFiles" ∈ boolFields)), if_pos rfl]
  cases hj : j.find? "headerFiles" with
  | none =>
    unfold fieldMismatch at hm
    rw [hj] at hm
    exact absurd hm (by simp)
  | some v =>
    have hty : expectedTypeOk "headerFiles" v = false := by
      unfold fieldMismatch at hm
      rw [hj] at hm
      simpa using hm
    unfold expectedTypeOk at hty
    rw [if_neg (by decide : ¬("headerFiles" ∈ boolFields)), if_pos rfl] at hty
    rcases v with _ | b | m | s | a | o
    · rfl
    · rfl
    · rfl
    · rfl
    · exact absurd hty (by simp [Json.isArr])
    · rfl

theorem readOptBool_absent (j : Json) (f : String) (d : Bool)
    (h : j.find? f = none) : readOptBool j f d = .ok d := by
  unfold readOptBool
  rw [h]

theorem readOptStr_absent (j : Json) (f : String) (d : String)
    (h : j.find? f = none) : readOptStr j f d = .ok d := by
  unfold readOptStr
  rw [h]

theorem readHeaderFiles_absent (j : Json)
    (h : j.find? "headerFiles" = none) : readHeaderFiles j = .ok [] := by
  unfold readHeaderFiles
  rw [h]

theorem readAppOptions_defaults (j : Json) (o : AppOptions)
    (h : readAppOptions j = .ok o) : absentDefaults j o := by
  unfold readAppOptions at h
  by_cases hobj : j.isObj
  case neg =>
    rw [if_neg hobj] at h
    exact absurd h (by simp)
  rw [if_pos hobj] at h
  cases h1 : readOptBool j "useCompileMacro" true with
  | error e => rw [h1] at h; exact absurd h (by simp [Except.bind])
  | ok u1 =>
  rw [h1] at h
  simp only [Except.bind] at h
  cases h2 : readOptBool j "usePragmaOnce" true with
  | error e => rw [h2] at h; exact absurd h (by simp [Except.bind])
  | ok u2 =>
  rw [h2] at h
  simp only [Except.bind] at h
  cases h3 : readOptStr j "languageEnum" "" with
  | error e => rw [h3] at h; exact absurd h (by simp [Except.bind])
  | ok u3 =>
  rw [h3] at h
  simp only [Except.bind] at h
  cases h4 : readOptStr j "pch" "" with
  | error e => rw [h4] at h; exact absurd h (by simp [Except.bind])
  | ok u4 =>
  rw [h4] at h
  simp only [Except.bind] at h
  cases h5 : readOptStr j "namespace" "" with
  | error e => rw [h5] at h; exact absurd h (by simp [Except.bind])
  | ok u5 =>
  rw [h5] at h
  simp only [Except.bind] at h
  cases h6 : readOptStr j "chatMessageType" "constexpr auto" with
  | error e => rw [h6] at h; exact absurd h (by simp [Except.bind])
  | ok u6 =>
  rw [h6] at h
  simp only [Except.bind] at h
  cases h7 : readHeaderFiles j with
  | error e => rw [h7] at h; exact absurd h (by simp [Except.bind])
  | ok u7 =>
  rw [h7] at h
  simp only [Except.bind, Except.ok.injEq] at h
  subst h
  refine ⟨fun ha => ?_, fun ha => ?_, fun ha => ?_, fun ha => ?_,
          fun ha => ?_, fun ha => ?_, fun ha => ?_⟩
  · rw [readOptStr_absent j "pch" "" ha] at h4
    injection h4 with hv
    exact hv.symm
  · rw [readOptStr_absent j "namespace" "" ha] at h5
    injection h5 with hv
    exact hv.symm
  · rw [readOptStr_absent j "languageEnum" "" ha] at h3
    injection h3 with hv
    exact hv.symm
  · rw [readHeaderFiles_absent j ha] at h7
    injection h7 with hv
    exact hv.symm
  · rw [readOptStr_absent j "chatMessageType" "constexpr auto" ha] at h6
    injection h6 with hv
    exact hv.symm
  · rw [readOptBool_absent j "useCompileMacro" true ha] at h1
    injection h1 with hv
    exact hv.symm
  · rw [readOptBool_absent j "usePragmaOnce" true ha] at h2
    injection h2 with hv
    exact hv.symm

/-- C7: on an options document that is a JSON object, a recognized field
present with the wrong JSON type (the first such field in check order)
makes the loader throw the type-mismatch message naming that field, and
the whole run aborts with that error before producing any output; on a
successful load, absent fields keep their C++ defaults. -/
theorem c7_options_type_mismatch (kvs : List (String × Json)) (f : String)
    (hmem : f ∈ checkOrder)
    (hm : fieldMismatch (Json.obj kvs) f = true)
    (hfirst : ∀ g ∈ checkOrder,
       checkOrder.indexOf g < checkOrder.indexOf f →
       fieldMismatch (Json.obj kvs) g = false) :
    readAppOptions (Json.obj kvs) = .error (mismatchMsg f)
    ∧ (∀ cj, runPipeline (Json.obj kvs) cj = .error (mismatchMsg f))
    ∧ (∀ (kvs2 : List (String × Json)) (o : AppOptions),
        readAppOptions (Json.obj kvs2) = .ok o →
        absentDefaults (Json.obj kvs2) o) := by
  have herr : readAppOptions (Json.obj kvs) = .error (mismatchMsg f) := by
    unfold readAppOptions
    rw [if_pos (show (Json.obj kvs).isObj = true from rfl)]
    simp only [checkOrder] at hmem
    fin_cases hmem
    · rw [readOptBool_mismatch _ "useCompileMacro" true (by decide) hm]
      rfl
    · obtain ⟨u1, h1⟩ := readOptBool_ok (Json.obj kvs) "useCompileMacro" true
        (by decide) (hfirst "useCompileMacro" (by decide) (by decide))
      simp only [h1, Except.bind]
      rw [readOptBool_mismatch _ "usePragmaOnce" true (by decide) hm]
    · obtain ⟨u1, h1⟩ := readOptBool_ok (Json.obj kvs) "useCompileMacro" true
        (by decide) (hfirst "useCompileMacro" (by decide) (by decide))
      obtain ⟨u2, h2⟩ := readOptBool_ok (Json.obj kvs) "usePragmaOnce" true
        (by decide) (hfirst "usePragmaOnce" (by decide) (by decide))
      simp only [h1, h2, Except.bind]
      rw [readOptStr_mismatch _ "languageEnum" "" (by decide) (by decide) hm]
    · obtain ⟨u1, h1⟩ := readOptBool_ok (Json.obj kvs) "useCompileMacro" true
        (by decide) (hfirst "useCompileMacro" (by decide) (by decide))
      obtain ⟨u2, h2⟩ := readOptBool_ok (Json.obj kvs) "usePragmaOnce" true
        (by decide) (hfirst "usePragmaOnce" (by decide) (by decide))
      obtain ⟨u3, h3⟩ := readOptStr_ok (Json.obj kvs) "languageEnum" ""
        (by decide) (by decide) (hfirst "languageEnum" (by decide) (by decide))
      simp only [h1, h2, h3, Except.bind]
      rw [readOptStr_mismatch _ "pch" "" (by decide) (by decide) hm]
    · obtain ⟨u1, h1⟩ := readOptBool_ok (Json.obj kvs) "useCompileMacro" true
        (by decide) (hfirst "useCompileMacro" (by decide) (by decide))
      obtain ⟨u2, h2⟩ := readOptBool_ok (Json.obj kvs) "usePragmaOnce" true
        (by decide) (hfirst "usePragmaOnce" (by decide) (by decide))
      obtain ⟨u3, h3⟩ := readOptStr_ok (Json.obj kvs) "languageEnum" ""
        (by decide) (by decide) (hfirst "languageEnum" (by decide) (by decide))
      obtain ⟨u4, h4⟩ := readOptStr_ok (Json.obj kvs) "pch" ""
        (by decide) (by decide) (hfirst "pch" (by decide) (by decide))
      simp only [h1, h2, h3, h4, Except.bind]
      rw [readOptStr_mismatch _ "namespace" "" (by decide) (by decide) hm]
    · obtain ⟨u1, h1⟩ := readOptBool_ok (Json.obj kvs) "useCompileMacro" true
        (by decide) (hfirst "useCompileMacro" (by decide) (by decide))
      obtain ⟨u2, h2⟩ := readOptBool_ok (Json.obj kvs) "usePragmaOnce" true
        (by decide) (hfirst "usePragmaOnce" (by decide) (by decide))
      obtain ⟨u3, h3⟩ := readOptStr_ok (Json.obj kvs) "languageEnum" ""
        (by decide) (by decide) (hfirst "languageEnum" (by decide) (by decide))
      obtain ⟨u4, h4⟩ := readOptStr_ok (Json.obj kvs) "pch" ""
        (by decide) (by decide) (hfirst "pch" (by decide) (by decide))
      obtain ⟨u5, h5⟩ := readOptStr_ok (Json.obj kvs) "namespace" ""
        (by decide) (by decide) (hfirst "namespace" (by decide) (by decide))
      simp only [h1, h2, h3, h4, h5, Except.bind]
      rw [readOptStr_mismatch _ "chatMessageType" "constexpr auto"
            (by decide) (by decide) hm]
    · obtain ⟨u1, h1⟩ := readOptBool_ok (Json.obj kvs) "useCompileMacro" true
        (by decide) (hfirst "useCompileMacro" (by decide) (by decide))
      obtain ⟨u2, h2⟩ := readOptBool_ok (Json.obj kvs) "usePragmaOnce" true
        (by decide) (hfirst "usePragmaOnce" (by decide) (by decide))
      obtain ⟨u3, h3⟩ := readOptStr_ok (Json.obj kvs) "languageEnum" ""
        (by decide) (by decide) (hfirst "languageEnum" (by decide) (by decide))
      obtain ⟨u4, h4⟩ := readOptStr_ok (Json.obj kvs) "pch" ""
        (by decide) (by decide) (hfirst "pch" (by decide) (by decide))
      obtain ⟨u5, h5⟩ := readOptStr_ok (Json.obj kvs) "namespace" ""
        (by decide) (by decide) (hfirst "namespace" (by decide) (by decide))
      obtain ⟨u6, h6⟩ := readOptStr_ok (Json.obj kvs) "chatMessageType"
        "constexpr auto" (by decide) (by decide)
        (hfirst "chatMessageType" (by decide) (by decide))
      simp only [h1, h2, h3, h4, h5, h6, Except.bind]
      rw [readHeaderFiles_mismatch _ hm]
  refine ⟨herr, fun cj => ?_, fun kvs2 o ho => readAppOptions_defaults _ o ho⟩
  unfold runPipeline
  rw [herr]
  rfl

/-- Witness for C7: a wrongly-typed `useCompileMacro` aborts the load
and the run; loading an empty options object keeps the defaults. -/
theorem c7_options_type_mismatch_witness :
    readAppOptions (Json.obj [("useCompileMacro", Json.str "yes")]) =
      .error (mismatchMsg "useCompileMacro")
    ∧ runPipeline (Json.obj [("useCompileMacro", Json.str "yes")]) Json.null =
        .error (mismatchMsg "useCompileMacro")
    ∧ ({} : AppOptions).pch = "" := by
  have hc := c7_options_type_mismatch [("useCompileMacro", Json.str "yes")]
    "useCompileMacro" (by decide) rfl (by decide)
  exact ⟨hc.1, hc.2.1 Json.null, (hc.2.2 [] {} rfl).1 rfl⟩
